import Mathlib

/-!
Verification of the SnatchTheBeat YouTube music downloader/player
(src/index.js).  The program's pure logic — filename sanitization,
metadata precedence resolution, the download/dedup pipeline, the
playlist loop, the mix-playlist detector, the interactive playback
loop and the CLI argument scan — is embedded as executable Lean
definitions; external processes (yt-dlp, ffmpeg, the audio player,
the HTTP client) are modelled as explicit inputs or effect records.
-/

namespace SnatchTheBeat

/-- The characters forbidden in file names: the regex character class
in `sanitize` (src/index.js line 397). -/
def forbiddenChars : List Char := ['<', '>', ':', '"', '/', '\\', '|', '?', '*']

/-- `forbidden c` holds when `c` is one of the characters the sanitizer replaces. -/
def forbidden (c : Char) : Bool := forbiddenChars.contains c

/-- Worker for the sanitizer.  The regex replacement with pattern
`[<>:"/\\|?*]+` and the global flag replaces every maximal nonempty run of
forbidden characters by one underscore; `prevForb` records whether the
previous character belonged to such a run. -/
def sanitizeGo : Bool → List Char → List Char
  | _, [] => []
  | prevForb, c :: cs =>
    if forbidden c then
      if prevForb then sanitizeGo true cs else '_' :: sanitizeGo true cs
    else
      c :: sanitizeGo false cs

/-- `sanitize` (src/index.js lines 396-398). -/
def sanitize (s : String) : String := ⟨sanitizeGo false s.toList⟩

/-- Per-character replacement (the map the spec describes): forbidden
characters become an underscore, all others are kept. -/
def sanChar (c : Char) : Char := if forbidden c then '_' else c

/-- No two adjacent characters are both forbidden. -/
def noAdjacentForbidden : List Char → Bool
  | [] => true
  | [_] => true
  | a :: b :: rest => !(forbidden a && forbidden b) && noAdjacentForbidden (b :: rest)

/-- JavaScript `a || b` where `a` is an optional string and `b` a string:
`a` is chosen when it is present and truthy (nonempty); otherwise `b`. -/
def jsOr : Option String → String → String
  | none, d => d
  | some s, d => if s.isEmpty then d else s

/-- Track Metadata as produced by the metadata extractor and read by
`downloadSong` (src/index.js lines 132-139, 169-174).  `id`, `title` and
`thumbnail` are always present; `track`, `artist`, `uploader` and `album`
may be absent. -/
structure TrackMetadata where
  id : String
  title : String
  track : Option String
  artist : Option String
  uploader : Option String
  album : Option String
  thumbnail : String
  deriving DecidableEq

/-- Display title: `info.track || info.title` (src/index.js lines 137, 170). -/
def displayTitleRaw (m : TrackMetadata) : String := jsOr m.track m.title

/-- Display artist: `info.artist || info.uploader || "Unknown"` (lines 136, 171). -/
def displayArtistRaw (m : TrackMetadata) : String :=
  jsOr m.artist (jsOr m.uploader "Unknown")

/-- Display album: `info.album || info.artist || info.uploader || "YouTube"` (line 172). -/
def displayAlbumRaw (m : TrackMetadata) : String :=
  jsOr m.album (jsOr m.artist (jsOr m.uploader "YouTube"))

/-- The root music directory (`MUSIC_DIR`, src/index.js line 112). -/
def MUSIC_DIR : String := "Music"

/-- The ID3 tag record passed to the tag writer (src/index.js lines 169-174);
the cover image entry is a fixed temporary path and is not modelled. -/
structure ID3Tags where
  title : String
  artist : String
  album : String
  deriving DecidableEq

/-- The tags `downloadSong` embeds: the raw (unsanitized) resolved metadata. -/
def tagsOf (m : TrackMetadata) : ID3Tags :=
  { title := displayTitleRaw m
    artist := displayArtistRaw m
    album := displayAlbumRaw m }

/-- The sanitized artist path component (src/index.js line 136). -/
def pathArtistOf (m : TrackMetadata) : String := sanitize (displayArtistRaw m)

/-- The sanitized title path component (src/index.js line 137). -/
def pathTitleOf (m : TrackMetadata) : String := sanitize (displayTitleRaw m)

/-- The Library File final path (src/index.js lines 142, 145); joining plain
path components is modelled as interposing a slash. -/
def finalPathOf (m : TrackMetadata) : String :=
  MUSIC_DIR ++ "/" ++ pathArtistOf m ++ "/" ++ pathTitleOf m ++ ".mp3"

/-- The external side effects of one `downloadSong` run, in invocation order:
the audio downloader, the transcoder, the thumbnail HTTP fetch, and the tag
writer. -/
inductive Effect where
  | downloader
  | transcoder
  | thumbFetch (url : String)
  | tagWrite (tags : ID3Tags)
  deriving DecidableEq

/-- What `downloadSong` reports on completion. -/
inductive Report where
  | alreadyDownloaded (title : String)
  | saved (path : String)
  deriving DecidableEq

/-- Result of one `downloadSong` run: the persisted library files afterwards,
the external effects performed, and the console report. -/
structure DownloadResult where
  files : List String
  effects : List Effect
  report : Report

/-- `downloadSong` (src/index.js lines 129-182) with the extractor output `m`
as input and the persisted library files as explicit state.  The temporary
raw file, the temporary encoded file and the cover image are created and
removed within the same successful run, so only the net new Library File is
kept; directory creation is not modelled. -/
def downloadSong (m : TrackMetadata) (files : List String) : DownloadResult :=
  if finalPathOf m ∈ files then
    { files := files, effects := [], report := .alreadyDownloaded (pathTitleOf m) }
  else
    { files := finalPathOf m :: files
      effects := [.downloader, .transcoder, .thumbFetch m.thumbnail, .tagWrite (tagsOf m)]
      report := .saved (finalPathOf m) }

/-- Outcome of attempting one playlist entry: `downloadSong` either obtains a
metadata record and runs, or throws (network or tool failure); the playlist
loop catches the latter (src/index.js lines 209-213). -/
inductive TrackOutcome where
  | ok (info : TrackMetadata)
  | err (msg : String)

/-- The track URL built for a playlist entry (src/index.js line 208). -/
def videoUrlOf (id : String) : String := "https://www.youtube.com/watch?v=" ++ id

/-- Result of the playlist download loop: final library files, the entries
attempted in order, and the logged failures (failing URL, error message). -/
structure PlaylistRun where
  files : List String
  attempted : List String
  failures : List (String × String)

/-- The per-entry loop of `downloadPlaylist` (src/index.js lines 206-214):
entries are tried in order; a failure is caught and logged with the failing
URL, and the loop continues with the remaining entries. -/
def downloadPlaylistLoop (outcome : String → TrackOutcome) :
    List String → List String → PlaylistRun
  | [], files => { files := files, attempted := [], failures := [] }
  | id :: rest, files =>
    match outcome id with
    | .ok info =>
      let r := downloadPlaylistLoop outcome rest (downloadSong info files).files
      { files := r.files
        attempted := videoUrlOf id :: r.attempted
        failures := r.failures }
    | .err msg =>
      let r := downloadPlaylistLoop outcome rest files
      { files := r.files
        attempted := videoUrlOf id :: r.attempted
        failures := (videoUrlOf id, msg) :: r.failures }

/-- The final paths of the entries that succeed, in order. -/
def okPaths (outcome : String → TrackOutcome) (ids : List String) : List String :=
  ids.filterMap fun id =>
    match outcome id with
    | .ok info => some (finalPathOf info)
    | .err _ => none

/-- The entries that fail, with their messages, in order. -/
def errLog (outcome : String → TrackOutcome) (ids : List String) :
    List (String × String) :=
  ids.filterMap fun id =>
    match outcome id with
    | .ok _ => none
    | .err msg => some (videoUrlOf id, msg)

/-- `startsWithL p s`: the character list `p` is a leading block of `s`. -/
def startsWithL : List Char → List Char → Bool
  | [], _ => true
  | _ :: _, [] => false
  | p :: ps, c :: cs => p == c && startsWithL ps cs

/-- `hasSub p s`: the pattern `p` occurs as a contiguous block somewhere in
`s`; this models an unanchored regex test for a literal pattern. -/
def hasSub (p : List Char) : List Char → Bool
  | [] => startsWithL p []
  | c :: cs => startsWithL p (c :: cs) || hasSub p cs

/-- The URL-pattern stage of `isMixPlaylist` (src/index.js lines 340-350):
the two regexes, each matching an ampersand or question mark followed by
the literal text, tested anywhere in the URL. -/
def urlPatternStage (url : String) : Bool :=
  hasSub "&list=RD".toList url.toList || hasSub "?list=RD".toList url.toList ||
  hasSub "&list=LM".toList url.toList || hasSub "?list=LM".toList url.toList

/-- Keyword list checked against the lowercased playlist title
(src/index.js lines 365-374). -/
def mixKeywords : List String :=
  ["mix", "radio", "station", "my mix", "your mix", "daily mix",
   "discover weekly", "release radar"]

/-- Outcome of the single-item metadata probe (src/index.js lines 354-357):
the probe either yields the first entry's playlist-title field (possibly
absent), or fails — timeout, tool error or malformed output, the inner
catch at lines 383-386. -/
inductive ProbeOutcome where
  | success (playlistTitle : Option String)
  | failure

/-- The probe stage of `isMixPlaylist` (src/index.js lines 352-386): on
success a truthy (nonempty) playlist title is lowercased and scanned for
the mix keywords; on probe failure a warning is logged and the playlist is
treated as not a mix. -/
def probeStage : ProbeOutcome → Bool
  | .success none => false
  | .success (some t) =>
    if t.isEmpty then false
    else mixKeywords.any fun k => hasSub k.toList t.toLower.toList
  | .failure => false

/-- `isMixPlaylist` (src/index.js lines 337-393) with the probe outcome made
explicit: the URL-pattern stage short-circuits to true; otherwise the result
is the probe stage's. -/
def isMixPlaylist (probe : ProbeOutcome) (url : String) : Bool :=
  if urlPatternStage url then true else probeStage probe

/-- Environment of one detection run: the routine either runs normally with
some probe outcome, or an unexpected exception escapes to the outer catch
(src/index.js lines 389-392). -/
inductive DetectorEnv where
  | normal (probe : ProbeOutcome)
  | unexpectedException

/-- The whole detection routine including the outer catch, which reports
an error and returns true. -/
def isMixPlaylistFull : DetectorEnv → String → Bool
  | .normal probe, url => isMixPlaylist probe url
  | .unexpectedException, _ => true

/-- Split a character list at every occurrence of `sep`; the separators are
dropped. -/
def splitOnChar (sep : Char) : List Char → List (List Char)
  | [] => [[]]
  | c :: cs =>
    if c == sep then [] :: splitOnChar sep cs
    else
      match splitOnChar sep cs with
      | [] => [[c]]
      | h :: t => (c :: h) :: t

/-- Everything after the first occurrence of `sep`, if any. -/
def afterFirst (sep : Char) : List Char → Option (List Char)
  | [] => none
  | c :: cs => if c == sep then some cs else afterFirst sep cs

/-- The name-value segments of the URL's query part (after the first
question mark). -/
def queryParams (url : List Char) : List (List Char) :=
  match afterFirst '?' url with
  | none => []
  | some q => splitOnChar '&' q

/-- The value of the first query parameter with the given name, if any. -/
def paramValue (name : List Char) (url : List Char) : Option (List Char) :=
  (queryParams url).findSome? fun seg =>
    if startsWithL (name ++ ['=']) seg then some (seg.drop (name.length + 1)) else none

/-- The playlist-identifier (`list`) query parameter's value. -/
def listParamValue (url : String) : Option (List Char) :=
  paramValue "list".toList url.toList

/-- Modelled from the spec's words for the pattern stage — a value beginning
with RD, or equal to LM — for comparison with `urlPatternStage`. -/
def specMixPatternCondition (url : String) : Bool :=
  match listParamValue url with
  | some v => startsWithL "RD".toList v || v == "LM".toList
  | none => false

/-- Modelled from the spec's words: display-artist precedence reading
"present" as field presence (artist, else uploader, else the literal
Unknown), for comparison with `displayArtistRaw`. -/
def specDisplayArtistPresence (m : TrackMetadata) : String :=
  match m.artist with
  | some a => a
  | none =>
    match m.uploader with
    | some u => u
    | none => "Unknown"

/-- JS truthiness of an optional string: present and nonempty. -/
def truthy : Option String → Bool
  | none => false
  | some s => !s.isEmpty

/-- Amended display-title precedence: track when present and nonempty,
else title. -/
def specDisplayTitleTruthy (m : TrackMetadata) : String :=
  if truthy m.track then m.track.getD "" else m.title

/-- Amended display-artist precedence with truthiness. -/
def specDisplayArtistTruthy (m : TrackMetadata) : String :=
  if truthy m.artist then m.artist.getD ""
  else if truthy m.uploader then m.uploader.getD ""
  else "Unknown"

/-- Amended display-album precedence with truthiness. -/
def specDisplayAlbumTruthy (m : TrackMetadata) : String :=
  if truthy m.album then m.album.getD ""
  else if truthy m.artist then m.artist.getD ""
  else if truthy m.uploader then m.uploader.getD ""
  else "YouTube"

/-- A playback-time Song Entry (src/index.js lines 228-231). -/
structure SongEntry where
  path : String
  name : String
  deriving DecidableEq

/-- Song Entries for one artist directory (src/index.js lines 228-231 and
238-241): the joined path and the display name. -/
def songEntries (artist : String) (files : List String) : List SongEntry :=
  files.map fun f =>
    { path := MUSIC_DIR ++ "/" ++ artist ++ "/" ++ f, name := artist ++ " - " ++ f }

/-- Candidate-list construction of `playDownloadedSongs` (src/index.js lines
219-244): with a specific artist only that directory, an error when it is
absent; otherwise every artist directory, flattened.  The library is the
on-disk tree: each artist directory with its file names. -/
def buildSongList (lib : List (String × List String)) :
    Option String → Except String (List SongEntry)
  | some a =>
    match lib.find? (fun p => p.1 == a) with
    | some p => .ok (songEntries a p.2)
    | none => .error ("Artist not found: " ++ a)
  | none => .ok ((lib.map fun p => songEntries p.1 p.2).flatten)

/-- The choices offered at the next-action prompt (src/index.js line 328),
verbatim: the first choice has two spaces after the glyph. -/
def nextActionChoices : List String := ["▶️  Play next", "❌ Exit"]

/-- The literal the chosen next action is compared against (src/index.js
line 331), verbatim: one space after the glyph. -/
def playNextComparison : String := "▶️ Play next"

/-- Events observable from the interactive playback loop. -/
inductive PlayEvent where
  | nowPlaying (name : String)
  | songNotFound
  | allPlayed
  deriving DecidableEq

/-- The interactive (non-random) branch of `playDownloadedSongs`
(src/index.js lines 277-332).  `script` supplies the user's answers per
iteration: the song picked at the selection prompt and the answer to the
next-action prompt (ignored in iterations that stop before that prompt).
Returns the event trace and the remaining songs when the loop stops. -/
def interactiveLoop :
    List SongEntry → List (String × String) → List PlayEvent × List SongEntry
  | remaining, [] => ([], remaining)
  | remaining, (pick, next) :: script =>
    if remaining.isEmpty then ([], remaining)
    else
      match remaining.find? (fun s => s.name == pick) with
      | none => ([.songNotFound], remaining)
      | some sel =>
        let remaining1 := remaining.filter fun s => s.name != sel.name
        if remaining1.isEmpty then ([.nowPlaying sel.name, .allPlayed], remaining1)
        else if next == playNextComparison then
          let r := interactiveLoop remaining1 script
          (.nowPlaying sel.name :: r.1, r.2)
        else ([.nowPlaying sel.name], remaining1)

/-- JS array findIndex: the index of the first element satisfying `p`. -/
def jsFindIndex (p : String → Bool) : List String → Option Nat
  | [] => none
  | a :: rest => if p a then some 0 else (jsFindIndex p rest).map (· + 1)

/-- The argument scan of the CLI `--play` branch (src/index.js lines
423-433): `--random` by presence anywhere; the token after the first
`--artist` when there is one and it is truthy, else no artist filter. -/
def parsePlayArgs (args : List String) : Bool × Option String :=
  (args.contains "--random",
    match jsFindIndex (fun a => a == "--artist") args with
    | some i =>
      match args[i + 1]? with
      | some v => if v.isEmpty then none else some v
      | none => none
    | none => none)

/-- Concrete metadata record: no track, artist or album field. -/
def mUploaderOnly : TrackMetadata :=
  { id := "abc123", title := "Song One", track := none, artist := none
    uploader := some "Some Uploader", album := none
    thumbnail := "https://example.test/thumb.jpg" }

/-- Concrete metadata record with an empty artist field and an uploader. -/
def mEmptyArtist : TrackMetadata :=
  { id := "x1", title := "T", track := none, artist := some ""
    uploader := some "Uploader", album := none, thumbnail := "u" }

/-- Concrete metadata record whose resolved title and artist contain
forbidden characters. -/
def mForbidden : TrackMetadata :=
  { id := "dQw4", title := "Song: One", track := none, artist := some "AC/DC"
    uploader := none, album := none, thumbnail := "https://example.test/t.jpg" }

/-- Concrete per-entry outcome map: the entry "bad" throws, every other
entry yields a metadata record titled by its id. -/
def outcomeW : String → TrackOutcome := fun id =>
  if id == "bad" then .err "boom"
  else .ok { id := id, title := id, track := none, artist := none
             uploader := none, album := none, thumbnail := "t" }

/-- Concrete song entries for the playback theorems. -/
def songA : SongEntry := { path := "Music/Alpha/a.mp3", name := "Alpha - a.mp3" }

/-- Second concrete song entry. -/
def songB : SongEntry := { path := "Music/Beta/b.mp3", name := "Beta - b.mp3" }

/-! ### Sanitizer lemmas -/

theorem sanitizeGo_no_forbidden (s : List Char) : ∀ (b : Bool),
    ∀ c ∈ sanitizeGo b s, forbidden c = false := by
  induction s with
  | nil => intro b c hc; simp [sanitizeGo] at hc
  | cons a t ih =>
    intro b c hc
    by_cases ha : forbidden a = true
    · cases b with
      | true =>
        simp only [sanitizeGo] at hc
        rw [if_pos ha, if_pos trivial] at hc
        exact ih true c hc
      | false =>
        simp only [sanitizeGo] at hc
        rw [if_pos ha, if_neg (by decide : ¬(false = true)), List.mem_cons] at hc
        rcases hc with hc | hc
        · subst hc; decide
        · exact ih true c hc
    · simp only [sanitizeGo] at hc
      rw [if_neg ha, List.mem_cons] at hc
      rcases hc with hc | hc
      · subst hc; simpa using ha
      · exact ih false c hc

theorem filter_sublist_sanitizeGo (b : Bool) (s : List Char) :
    List.Sublist (s.filter fun c => !forbidden c) (sanitizeGo b s) := by
  induction s generalizing b with
  | nil => simp [sanitizeGo]
  | cons a t ih =>
    by_cases ha : forbidden a = true
    · have hfa : (!forbidden a) = false := by simp [ha]
      rw [List.filter_cons_of_neg (by simp [hfa])]
      rcases b with _ | _
      · simp only [sanitizeGo, ha, if_true]
        exact (ih true).cons _
      · simp only [sanitizeGo, ha, if_true]
        exact ih true
    · have hfa : (!forbidden a) = true := by simp [ha]
      rw [List.filter_cons_of_pos (by simp [hfa])]
      simp only [sanitizeGo, ha, if_false]
      exact (ih false).cons₂ _

theorem noAdjacent_tail {a : Char} {t : List Char}
    (h : noAdjacentForbidden (a :: t) = true) : noAdjacentForbidden t = true := by
  cases t with
  | nil => rfl
  | cons b r =>
    simp only [noAdjacentForbidden, Bool.and_eq_true] at h
    exact h.2

theorem noAdjacent_head {a b : Char} {r : List Char}
    (h : noAdjacentForbidden (a :: b :: r) = true) (ha : forbidden a = true) :
    forbidden b = false := by
  simp only [noAdjacentForbidden, Bool.and_eq_true, Bool.not_eq_true',
    Bool.and_eq_false_iff] at h
  rcases h.1 with h1 | h1
  · rw [ha] at h1; exact absurd h1 (by decide)
  · exact h1

theorem sanitizeGo_map (s : List Char) : ∀ (b : Bool),
    noAdjacentForbidden s = true →
    (b = true → ∀ c, s.head? = some c → forbidden c = false) →
    sanitizeGo b s = s.map sanChar := by
  induction s with
  | nil => intro b _ _; simp [sanitizeGo]
  | cons a t ih =>
    intro b hadj hb
    by_cases ha : forbidden a = true
    · have hbf : b = false := by
        rcases Bool.eq_false_or_eq_true b with hb1 | hb1
        · exact absurd (hb hb1 a rfl) (by simp [ha])
        · exact hb1
      subst hbf
      have h1 : sanitizeGo false (a :: t) = '_' :: sanitizeGo true t := by
        simp [sanitizeGo, ha]
      have h2 : sanChar a = '_' := by simp [sanChar, ha]
      rw [h1, List.map_cons, h2]
      congr 1
      apply ih true (noAdjacent_tail hadj)
      intro _ c hc
      cases t with
      | nil => simp at hc
      | cons b2 r =>
        simp only [List.head?_cons, Option.some_inj] at hc
        subst hc
        exact noAdjacent_head hadj ha
    · have h1 : sanitizeGo b (a :: t) = a :: sanitizeGo false t := by
        simp [sanitizeGo, ha]
      have h2 : sanChar a = a := by simp [sanChar, ha]
      rw [h1, List.map_cons, h2]
      congr 1
      exact ih false (noAdjacent_tail hadj) (fun hfalse => Bool.noConfusion hfalse)

/-! ### Claim theorems: sanitizer -/

/-- Claim C4 fails as stated: the replacement collapses each run of adjacent
forbidden characters into a single underscore, so with two adjacent forbidden
characters the output has one underscore and the length shrinks. -/
theorem sanitize_length_counterexample :
    sanitize "a<<b" = "a_b" ∧ ("a<<b" : String).length = 4 ∧
    (sanitize "a<<b").length = 3 := by
  refine ⟨?_, ?_, ?_⟩ <;> decide

/-- Claim C4 (amended): the sanitizer replaces every maximal run of
consecutive forbidden characters by a single underscore; in particular, when
no two forbidden characters are adjacent it replaces each forbidden
character by one underscore, leaves every other character unchanged in
place, and preserves the length.  It is a pure total function. -/
theorem sanitize_no_adjacent_char_map (s : String)
    (h : noAdjacentForbidden s.toList = true) :
    sanitize s = ⟨s.toList.map sanChar⟩ ∧ (sanitize s).length = s.length := by
  have h1 : sanitizeGo false s.toList = s.toList.map sanChar :=
    sanitizeGo_map s.toList false h (fun hfalse => Bool.noConfusion hfalse)
  refine ⟨?_, ?_⟩
  · show (⟨sanitizeGo false s.toList⟩ : String) = ⟨s.toList.map sanChar⟩
    rw [h1]
  · show (sanitizeGo false s.toList).length = s.toList.length
    rw [h1, List.length_map]

/-- Witness for the amended C4 theorem at a concrete input. -/
theorem sanitize_no_adjacent_char_map_w :
    sanitize "a<b" = ⟨"a<b".toList.map sanChar⟩ ∧
    (sanitize "a<b").length = ("a<b" : String).length :=
  sanitize_no_adjacent_char_map "a<b" (by decide)

/-- Claim C8: for every string containing a forbidden character, the
sanitizer output contains none of the forbidden characters, and the
non-forbidden characters of the input are preserved in their original
relative order (they form a subsequence of the output). -/
theorem sanitize_removes_and_preserves (s : String)
    (h : ∃ c ∈ s.toList, forbidden c = true) :
    (∀ c ∈ (sanitize s).toList, forbidden c = false) ∧
    List.Sublist (s.toList.filter fun c => !forbidden c) (sanitize s).toList := by
  refine ⟨?_, ?_⟩
  · intro c hc
    exact sanitizeGo_no_forbidden s.toList false c hc
  · exact filter_sublist_sanitizeGo false s.toList

/-- Witness for the C8 theorem at a concrete input. -/
theorem sanitize_removes_and_preserves_w :
    (∀ c ∈ (sanitize "a<b|c").toList, forbidden c = false) ∧
    List.Sublist ("a<b|c".toList.filter fun c => !forbidden c)
      (sanitize "a<b|c").toList :=
  sanitize_removes_and_preserves "a<b|c" (by decide)

/-! ### Claim theorems: metadata resolution -/

theorem jsOr_eq_truthy (x : Option String) (d : String) :
    jsOr x d = if truthy x then x.getD "" else d := by
  rcases x with _ | s
  · rfl
  · by_cases hs : s.isEmpty <;> simp [jsOr, truthy, hs]

/-- Claim C5 fails as stated: with a present-but-empty artist field the code
falls through to the uploader, while the field-presence reading keeps the
empty artist. -/
theorem display_precedence_counterexample :
    displayArtistRaw mEmptyArtist = "Uploader" ∧
    specDisplayArtistPresence mEmptyArtist = "" ∧
    displayArtistRaw mEmptyArtist ≠ specDisplayArtistPresence mEmptyArtist := by
  refine ⟨?_, ?_, ?_⟩ <;> decide

/-- Claim C5 (amended): the display title, artist and album follow the
stated precedence chains with "present" read as present and truthy
(nonempty), exactly as the truthiness-based spec definitions state. -/
theorem display_resolution (m : TrackMetadata) :
    displayTitleRaw m = specDisplayTitleTruthy m ∧
    displayArtistRaw m = specDisplayArtistTruthy m ∧
    displayAlbumRaw m = specDisplayAlbumTruthy m := by
  refine ⟨?_, ?_, ?_⟩ <;>
    simp only [displayTitleRaw, displayArtistRaw, displayAlbumRaw,
      specDisplayTitleTruthy, specDisplayArtistTruthy, specDisplayAlbumTruthy,
      jsOr_eq_truthy]

/-! ### Claim theorems: tags versus path components -/

theorem sanitize_ne_self (s : String) (h : ∃ c ∈ s.toList, forbidden c = true) :
    sanitize s ≠ s := by
  obtain ⟨c, hc, hf⟩ := h
  intro he
  have hl : sanitizeGo false s.toList = s.toList := congrArg String.data he
  have hmem : c ∈ sanitizeGo false s.toList := by rw [hl]; exact hc
  have hff := sanitizeGo_no_forbidden s.toList false c hmem
  rw [hff] at hf
  exact Bool.false_ne_true hf

/-- Claim C9: the embedded ID3 tags carry the raw resolved metadata while
the path components are the sanitized values; whenever the resolved title or
artist contains a forbidden character, the tag value differs from the
corresponding path component. -/
theorem tags_raw_paths_sanitized (m : TrackMetadata) :
    (tagsOf m).title = displayTitleRaw m ∧
    (tagsOf m).artist = displayArtistRaw m ∧
    pathTitleOf m = sanitize (tagsOf m).title ∧
    pathArtistOf m = sanitize (tagsOf m).artist ∧
    ((∃ c ∈ ((tagsOf m).title).toList, forbidden c = true) →
      (tagsOf m).title ≠ pathTitleOf m) ∧
    ((∃ c ∈ ((tagsOf m).artist).toList, forbidden c = true) →
      (tagsOf m).artist ≠ pathArtistOf m) := by
  refine ⟨rfl, rfl, rfl, rfl, ?_, ?_⟩
  · intro h
    exact Ne.symm (sanitize_ne_self _ h)
  · intro h
    exact Ne.symm (sanitize_ne_self _ h)

/-- Witness for the C9 theorem: a record whose resolved title and artist
contain forbidden characters. -/
theorem tags_raw_paths_sanitized_w :
    (tagsOf mForbidden).title ≠ pathTitleOf mForbidden ∧
    (tagsOf mForbidden).artist ≠ pathArtistOf mForbidden :=
  ⟨(tags_raw_paths_sanitized mForbidden).2.2.2.2.1 (by decide),
   (tags_raw_paths_sanitized mForbidden).2.2.2.2.2 (by decide)⟩

/-! ### Claim theorems: download idempotence -/

/-- Claim C1: a second acquisition of the same track reference finds the
Library File already present, changes nothing, performs no external
downloader, transcoder, thumbnail-fetch or tag-writer call, reports
"already downloaded", and exactly one Library File at the computed path
remains. -/
theorem downloadSong_idempotent (m : TrackMetadata) (files : List String)
    (h : files.count (finalPathOf m) ≤ 1) :
    (downloadSong m (downloadSong m files).files).files
      = (downloadSong m files).files ∧
    (downloadSong m (downloadSong m files).files).effects = [] ∧
    (downloadSong m (downloadSong m files).files).report
      = .alreadyDownloaded (pathTitleOf m) ∧
    (downloadSong m (downloadSong m files).files).files.count (finalPathOf m)
      = 1 := by
  by_cases hmem : finalPathOf m ∈ files
  · have h1 : (downloadSong m files).files = files := by simp [downloadSong, hmem]
    rw [h1]
    have hpos : 0 < files.count (finalPathOf m) := List.count_pos_iff.mpr hmem
    have hcnt : files.count (finalPathOf m) = 1 := by omega
    simp [downloadSong, hmem, hcnt]
  · have h1 : (downloadSong m files).files = finalPathOf m :: files := by
      simp [downloadSong, hmem]
    rw [h1]
    have hmem2 : finalPathOf m ∈ finalPathOf m :: files := List.mem_cons_self _ _
    have hcnt0 : files.count (finalPathOf m) = 0 := List.count_eq_zero.mpr hmem
    simp [downloadSong, hmem2, hcnt0]

/-- Witness for the C1 theorem at a concrete track and an empty library. -/
theorem downloadSong_idempotent_w :
    (downloadSong mUploaderOnly (downloadSong mUploaderOnly []).files).files
      = (downloadSong mUploaderOnly []).files ∧
    (downloadSong mUploaderOnly (downloadSong mUploaderOnly []).files).effects
      = [] ∧
    (downloadSong mUploaderOnly (downloadSong mUploaderOnly []).files).report
      = .alreadyDownloaded (pathTitleOf mUploaderOnly) ∧
    (downloadSong mUploaderOnly
        (downloadSong mUploaderOnly []).files).files.count
      (finalPathOf mUploaderOnly) = 1 :=
  downloadSong_idempotent mUploaderOnly [] (by decide)

/-! ### Claim theorems: playlist fault isolation -/

theorem downloadPlaylistLoop_spec (outcome : String → TrackOutcome)
    (ids : List String) : ∀ (files : List String),
    (okPaths outcome ids).Nodup →
    (∀ p ∈ okPaths outcome ids, p ∉ files) →
    (downloadPlaylistLoop outcome ids files).attempted = ids.map videoUrlOf ∧
    (downloadPlaylistLoop outcome ids files).failures = errLog outcome ids ∧
    (downloadPlaylistLoop outcome ids files).files
      = (okPaths outcome ids).reverse ++ files := by
  induction ids with
  | nil => intro files _ _; exact ⟨rfl, rfl, rfl⟩
  | cons id rest ih =>
    intro files hnd hfresh
    cases hout : outcome id with
    | ok info =>
      have hoks : okPaths outcome (id :: rest)
          = finalPathOf info :: okPaths outcome rest := by
        simp [okPaths, hout]
      have herr : errLog outcome (id :: rest) = errLog outcome rest := by
        simp [errLog, hout]
      rw [hoks] at hnd hfresh
      have hfp : finalPathOf info ∉ files := hfresh _ (List.mem_cons_self _ _)
      have hdl : (downloadSong info files).files = finalPathOf info :: files := by
        simp [downloadSong, hfp]
      have hnd2 : (okPaths outcome rest).Nodup := hnd.of_cons
      have hfresh2 : ∀ p ∈ okPaths outcome rest,
          p ∉ finalPathOf info :: files := by
        intro p hp
        rw [List.mem_cons]
        rintro (hpe | hpf)
        · exact (List.nodup_cons.mp hnd).1 (hpe ▸ hp)
        · exact hfresh p (List.mem_cons_of_mem _ hp) hpf
      obtain ⟨ha, hf, hfl⟩ := ih (finalPathOf info :: files) hnd2 hfresh2
      simp only [downloadPlaylistLoop, hout, hdl]
      refine ⟨?_, ?_, ?_⟩
      · rw [List.map_cons, ha]
      · rw [herr, hf]
      · rw [hfl, hoks, List.reverse_cons, List.append_assoc,
          List.singleton_append]
    | err msg =>
      have hoks : okPaths outcome (id :: rest) = okPaths outcome rest := by
        simp [okPaths, hout]
      have herr : errLog outcome (id :: rest)
          = (videoUrlOf id, msg) :: errLog outcome rest := by
        simp [errLog, hout]
      rw [hoks] at hnd hfresh
      obtain ⟨ha, hf, hfl⟩ := ih files hnd hfresh
      simp only [downloadPlaylistLoop, hout]
      refine ⟨?_, ?_, ?_⟩
      · rw [List.map_cons, ha]
      · rw [herr, hf]
      · rw [hoks, hfl]

theorem okPaths_errLog_length (outcome : String → TrackOutcome)
    (ids : List String) :
    (okPaths outcome ids).length + (errLog outcome ids).length = ids.length := by
  induction ids with
  | nil => rfl
  | cons id rest ih =>
    cases hout : outcome id with
    | ok info =>
      have h1 : okPaths outcome (id :: rest)
          = finalPathOf info :: okPaths outcome rest := by simp [okPaths, hout]
      have h2 : errLog outcome (id :: rest) = errLog outcome rest := by
        simp [errLog, hout]
      rw [h1, h2, List.length_cons, List.length_cons]
      omega
    | err msg =>
      have h1 : okPaths outcome (id :: rest) = okPaths outcome rest := by
        simp [okPaths, hout]
      have h2 : errLog outcome (id :: rest)
          = (videoUrlOf id, msg) :: errLog outcome rest := by simp [errLog, hout]
      rw [h1, h2, List.length_cons, List.length_cons]
      omega

/-- Claim C6: the playlist loop attempts every entry in resolution order;
when exactly one entry fails, the failure is caught and logged with the
failing reference, the remaining entries are still attempted, and with the
other entries succeeding on fresh distinct paths the run yields one new
Library File per entry except the failing one. -/
theorem playlist_fault_isolation (outcome : String → TrackOutcome)
    (ids : List String) (files : List String)
    (hone : (errLog outcome ids).length = 1)
    (hnd : (okPaths outcome ids).Nodup)
    (hfresh : ∀ p ∈ okPaths outcome ids, p ∉ files) :
    (downloadPlaylistLoop outcome ids files).attempted = ids.map videoUrlOf ∧
    (downloadPlaylistLoop outcome ids files).attempted.length = ids.length ∧
    (downloadPlaylistLoop outcome ids files).failures = errLog outcome ids ∧
    (downloadPlaylistLoop outcome ids files).failures.length = 1 ∧
    (downloadPlaylistLoop outcome ids files).files
      = (okPaths outcome ids).reverse ++ files ∧
    (downloadPlaylistLoop outcome ids files).files.length + 1
      = files.length + ids.length ∧
    ∀ p ∈ okPaths outcome ids,
      p ∈ (downloadPlaylistLoop outcome ids files).files := by
  obtain ⟨ha, hf, hfl⟩ := downloadPlaylistLoop_spec outcome ids files hnd hfresh
  have hlen := okPaths_errLog_length outcome ids
  refine ⟨ha, ?_, hf, ?_, hfl, ?_, ?_⟩
  · rw [ha, List.length_map]
  · rw [hf, hone]
  · have hap : ((okPaths outcome ids).reverse ++ files).length
        = (okPaths outcome ids).length + files.length := by
      rw [List.length_append, List.length_reverse]
    rw [hfl, hap]
    omega
  · intro p hp
    rw [hfl]
    exact List.mem_append_left _ (List.mem_reverse.mpr hp)

/-- Witness for the C6 theorem: three entries of which exactly the middle
one fails. -/
theorem playlist_fault_isolation_w :
    (downloadPlaylistLoop outcomeW ["a", "bad", "b"] []).attempted
      = ["a", "bad", "b"].map videoUrlOf ∧
    (downloadPlaylistLoop outcomeW ["a", "bad", "b"] []).attempted.length
      = ["a", "bad", "b"].length ∧
    (downloadPlaylistLoop outcomeW ["a", "bad", "b"] []).failures
      = errLog outcomeW ["a", "bad", "b"] ∧
    (downloadPlaylistLoop outcomeW ["a", "bad", "b"] []).failures.length = 1 ∧
    (downloadPlaylistLoop outcomeW ["a", "bad", "b"] []).files
      = (okPaths outcomeW ["a", "bad", "b"]).reverse ++ [] ∧
    (downloadPlaylistLoop outcomeW ["a", "bad", "b"] []).files.length + 1
      = ([] : List String).length + ["a", "bad", "b"].length ∧
    ∀ p ∈ okPaths outcomeW ["a", "bad", "b"],
      p ∈ (downloadPlaylistLoop outcomeW ["a", "bad", "b"] []).files :=
  playlist_fault_isolation outcomeW ["a", "bad", "b"] [] (by decide) (by decide)
    (by decide)

/-! ### Claim theorems: mix-detector failure classification -/

/-- Claim C7: the failure classification is asymmetric — on URLs that reach
the probe, a probe failure logs a warning and yields false (not a mix,
acquisition proceeds), while an unexpected exception escaping anywhere in
the routine yields true (is a mix, reject). -/
theorem mix_failure_asymmetry (url : String) (h : urlPatternStage url = false) :
    isMixPlaylistFull (.normal .failure) url = false ∧
    isMixPlaylistFull .unexpectedException url = true := by
  refine ⟨?_, rfl⟩
  simp [isMixPlaylistFull, isMixPlaylist, h, probeStage]

/-- Witness for the C7 theorem at a concrete ordinary playlist URL. -/
theorem mix_failure_asymmetry_w :
    isMixPlaylistFull (.normal .failure)
      "https://www.youtube.com/playlist?list=PL123" = false ∧
    isMixPlaylistFull .unexpectedException
      "https://www.youtube.com/playlist?list=PL123" = true :=
  mix_failure_asymmetry "https://www.youtube.com/playlist?list=PL123" (by decide)

/-! ### Mix-detector URL pattern lemmas -/

theorem startsWithL_self_append (p r : List Char) :
    startsWithL p (p ++ r) = true := by
  induction p with
  | nil => rfl
  | cons a t ih => simp [startsWithL, ih]

theorem startsWithL_append_cancel (p q r : List Char) :
    startsWithL (p ++ q) (p ++ r) = startsWithL q r := by
  induction p with
  | nil => rfl
  | cons a t ih => simp [startsWithL, ih]

theorem hasSub_head_not_mem {c : Char} {p : List Char} : ∀ {s : List Char},
    c ∉ s → hasSub (c :: p) s = false := by
  intro s
  induction s with
  | nil => intro _; rfl
  | cons b rest ih =>
    intro h
    have hcb : (c == b) = false := by
      apply beq_eq_false_iff_ne.mpr
      intro he
      exact h (List.mem_cons.mpr (Or.inl he))
    have hcr : c ∉ rest := fun hm => h (List.mem_cons_of_mem _ hm)
    have h1 : startsWithL (c :: p) (b :: rest) = false := by
      simp [startsWithL, hcb]
    simp only [hasSub, h1, ih hcr]
    rfl

theorem hasSub_single_sep {p : List Char} : ∀ {base : List Char}
    {rest : List Char}, '?' ∉ base → '?' ∉ rest →
    hasSub ('?' :: p) (base ++ '?' :: rest) = startsWithL p rest := by
  intro base
  induction base with
  | nil =>
    intro rest _ hr
    simp only [List.nil_append, hasSub]
    rw [hasSub_head_not_mem hr]
    simp [startsWithL]
  | cons b tb ih =>
    intro rest hb hr
    have hqb : (('?' : Char) == b) = false := by
      apply beq_eq_false_iff_ne.mpr
      intro he
      exact hb (List.mem_cons.mpr (Or.inl he))
    have hqtb : ('?' : Char) ∉ tb := fun hm => hb (List.mem_cons_of_mem _ hm)
    simp only [List.cons_append, hasSub, List.append_eq]
    have h1 : startsWithL ('?' :: p) (b :: (tb ++ '?' :: rest)) = false := by
      simp [startsWithL, hqb]
    rw [h1, ih hqtb hr]
    simp

theorem afterFirst_append {sep : Char} : ∀ {xs : List Char} (ys : List Char),
    sep ∉ xs → afterFirst sep (xs ++ sep :: ys) = some ys := by
  intro xs
  induction xs with
  | nil => intro ys _; simp [afterFirst]
  | cons a t ih =>
    intro ys h
    have ha : (a == sep) = false := by
      apply beq_eq_false_iff_ne.mpr
      intro he
      exact h (List.mem_cons.mpr (Or.inl he.symm))
    have ht : sep ∉ t := fun hm => h (List.mem_cons_of_mem _ hm)
    simp only [List.cons_append, afterFirst, ha]
    simp only [Bool.false_eq_true, if_false]
    exact ih ys ht

theorem splitOnChar_no_sep {sep : Char} : ∀ {l : List Char},
    sep ∉ l → splitOnChar sep l = [l] := by
  intro l
  induction l with
  | nil => intro _; rfl
  | cons a t ih =>
    intro h
    have ha : (a == sep) = false := by
      apply beq_eq_false_iff_ne.mpr
      intro he
      exact h (List.mem_cons.mpr (Or.inl he.symm))
    have ht : sep ∉ t := fun hm => h (List.mem_cons_of_mem _ hm)
    simp [splitOnChar, ha, ih ht]

/-! ### Claim theorems: mix-detector URL pattern stage -/

/-- Claim C3 fails as stated: a list value beginning with LM but not equal
to LM still matches the URL pattern stage. -/
theorem mix_pattern_counterexample :
    urlPatternStage "https://www.youtube.com/playlist?list=LMabc" = true ∧
    specMixPatternCondition "https://www.youtube.com/playlist?list=LMabc"
      = false := by
  refine ⟨?_, ?_⟩ <;> decide

/-- Claim C3 (amended): for a well-formed playlist URL — a base without
question marks or ampersands, followed by a question mark and a single list
parameter whose value has neither — the pattern stage classifies the URL as
a mix, independent of any probe, exactly when the list value begins with RD
or begins with LM; on any other such URL the detector's result is the probe
stage's. -/
theorem mix_pattern_characterization (base v : String)
    (hb1 : '?' ∉ base.toList) (hb2 : '&' ∉ base.toList)
    (hv1 : '?' ∉ v.toList) (hv2 : '&' ∉ v.toList) :
    listParamValue (base ++ "?list=" ++ v) = some v.toList ∧
    urlPatternStage (base ++ "?list=" ++ v)
      = (startsWithL "RD".toList v.toList
          || startsWithL "LM".toList v.toList) ∧
    (∀ probe, urlPatternStage (base ++ "?list=" ++ v) = true →
      isMixPlaylist probe (base ++ "?list=" ++ v) = true) ∧
    (∀ probe, urlPatternStage (base ++ "?list=" ++ v) = false →
      isMixPlaylist probe (base ++ "?list=" ++ v) = probeStage probe) := by
  have hurl : (base ++ "?list=" ++ v).toList
      = base.toList ++ '?' :: ("list=".toList ++ v.toList) := by
    show (base ++ "?list=" ++ v).data
        = base.data ++ '?' :: ("list=".data ++ v.data)
    rw [String.data_append, String.data_append]
    rw [show "?list=".data = '?' :: "list=".data from rfl]
    rw [List.append_assoc, List.cons_append]
  have hnr : ('?' : Char) ∉ "list=".toList ++ v.toList := by
    intro hm
    rcases List.mem_append.mp hm with hm | hm
    · exact absurd hm (by decide)
    · exact hv1 hm
  have hns : ('&' : Char) ∉ "list=".toList ++ v.toList := by
    intro hm
    rcases List.mem_append.mp hm with hm | hm
    · exact absurd hm (by decide)
    · exact hv2 hm
  have hpv : listParamValue (base ++ "?list=" ++ v) = some v.toList := by
    have hqp : queryParams ((base ++ "?list=" ++ v).toList)
        = ["list=".toList ++ v.toList] := by
      unfold queryParams
      rw [hurl, afterFirst_append _ hb1]
      exact splitOnChar_no_sep hns
    unfold listParamValue paramValue
    rw [hqp]
    have hsw : startsWithL ("list".toList ++ ['='])
        ("list=".toList ++ v.toList) = true := by
      rw [show "list".toList ++ ['='] = "list=".toList from by decide]
      exact startsWithL_self_append _ _
    have hdrop : ("list=".toList ++ v.toList).drop ("list".toList.length + 1)
        = v.toList := by
      rw [show "list".toList.length + 1 = "list=".toList.length from by decide]
      exact List.drop_left _ _
    simp [List.findSome?, hsw, hdrop]
    have h3 : startsWithL ['l', 'i', 's', 't', '=']
        ('l' :: 'i' :: 's' :: 't' :: '=' :: v.data) = true :=
      startsWithL_self_append ['l', 'i', 's', 't', '='] v.data
    rw [h3]
    simp
  have hnAmp : ('&' : Char) ∉ (base ++ "?list=" ++ v).toList := by
    rw [hurl]
    intro hm
    rcases List.mem_append.mp hm with hm | hm
    · exact hb2 hm
    · rcases List.mem_cons.mp hm with hm | hm
      · exact absurd hm (by decide)
      · exact hns hm
  have hps : urlPatternStage (base ++ "?list=" ++ v)
      = (startsWithL "RD".toList v.toList
          || startsWithL "LM".toList v.toList) := by
    unfold urlPatternStage
    rw [show "&list=RD".toList = '&' :: "list=RD".toList from rfl,
      show "&list=LM".toList = '&' :: "list=LM".toList from rfl,
      show "?list=RD".toList = '?' :: "list=RD".toList from rfl,
      show "?list=LM".toList = '?' :: "list=LM".toList from rfl,
      hasSub_head_not_mem hnAmp, hasSub_head_not_mem hnAmp,
      hurl, hasSub_single_sep hb1 hnr, hasSub_single_sep hb1 hnr,
      show "list=RD".toList = "list=".toList ++ "RD".toList from by decide,
      show "list=LM".toList = "list=".toList ++ "LM".toList from by decide,
      startsWithL_append_cancel, startsWithL_append_cancel]
    simp
  refine ⟨hpv, hps, ?_, ?_⟩
  · intro probe hp
    simp [isMixPlaylist, hp]
  · intro probe hp
    simp [isMixPlaylist, hp]

/-- Witness for the amended C3 theorem: a radio (RD-prefixed) list value. -/
theorem mix_pattern_characterization_w :
    listParamValue ("https://www.youtube.com/playlist" ++ "?list=" ++ "RDxyz")
      = some "RDxyz".toList ∧
    urlPatternStage ("https://www.youtube.com/playlist" ++ "?list=" ++ "RDxyz")
      = (startsWithL "RD".toList "RDxyz".toList
          || startsWithL "LM".toList "RDxyz".toList) ∧
    (∀ probe, urlPatternStage
        ("https://www.youtube.com/playlist" ++ "?list=" ++ "RDxyz") = true →
      isMixPlaylist probe
        ("https://www.youtube.com/playlist" ++ "?list=" ++ "RDxyz") = true) ∧
    (∀ probe, urlPatternStage
        ("https://www.youtube.com/playlist" ++ "?list=" ++ "RDxyz") = false →
      isMixPlaylist probe
        ("https://www.youtube.com/playlist" ++ "?list=" ++ "RDxyz")
        = probeStage probe) :=
  mix_pattern_characterization "https://www.youtube.com/playlist" "RDxyz"
    (by decide) (by decide) (by decide) (by decide)

/-! ### Claim theorems: interactive playback loop -/

/-- Claim C2 exposes a code bug: the next-action menu offers a Play next
choice whose text has two spaces after the glyph, while the loop flag is
compared against a one-space literal, so the comparison is always false and
choosing Play next stops the loop.  With two songs, the user picking the
first song, answering with the Play next menu choice, and standing ready to
pick the second song, the loop plays one song and stops with the second
song still remaining. -/
theorem play_next_never_continues :
    nextActionChoices.contains playNextComparison = false ∧
    interactiveLoop [songA, songB]
      [("Alpha - a.mp3", "▶️  Play next"), ("Beta - b.mp3", "▶️  Play next")]
      = ([.nowPlaying "Alpha - a.mp3"], [songB]) := by
  refine ⟨?_, ?_⟩ <;> decide

/-! ### Claim theorems: CLI artist flag -/

theorem jsFindIndex_append_last {pre : List String} (h : "--artist" ∉ pre) :
    jsFindIndex (fun a => a == "--artist") (pre ++ ["--artist"])
      = some pre.length := by
  induction pre with
  | nil => rfl
  | cons a t ih =>
    have hat : "--artist" ∉ t := fun hm => h (List.mem_cons_of_mem _ hm)
    have ha : (a == "--artist") = false := by
      apply beq_eq_false_iff_ne.mpr
      intro he
      exact h (List.mem_cons.mpr (Or.inl he.symm))
    simp only [List.cons_append, jsFindIndex, ha, List.append_eq]
    simp only [Bool.false_eq_true, if_false]
    rw [ih hat]
    rfl

/-- Claim C10: with the artist flag as the final token, the artist filter
is silently left unset: parsing yields no specific artist, and the Playback
Selector's candidate construction enumerates every artist directory rather
than reporting an artist-not-found error. -/
theorem artist_flag_without_value (pre : List String)
    (lib : List (String × List String)) (h : "--artist" ∉ pre) :
    (parsePlayArgs (pre ++ ["--artist"])).2 = none ∧
    buildSongList lib (parsePlayArgs (pre ++ ["--artist"])).2
      = .ok ((lib.map fun p => songEntries p.1 p.2).flatten) := by
  have h2 : (parsePlayArgs (pre ++ ["--artist"])).2 = none := by
    show (match jsFindIndex (fun a => a == "--artist") (pre ++ ["--artist"]) with
      | some i =>
        match (pre ++ ["--artist"])[i + 1]? with
        | some v => if v.isEmpty then none else some v
        | none => none
      | none => none) = none
    rw [jsFindIndex_append_last h]
    have hnone : (pre ++ ["--artist"])[pre.length + 1]? = none := by
      apply List.getElem?_eq_none
      rw [List.length_append]
      simp
    show (match (pre ++ ["--artist"])[pre.length + 1]? with
      | some v => if v.isEmpty then none else some v
      | none => none) = none
    rw [hnone]
  refine ⟨h2, ?_⟩
  rw [h2]
  rfl

/-- Witness for the C10 theorem: a play invocation ending in the artist
flag, over a two-artist library. -/
theorem artist_flag_without_value_w :
    (parsePlayArgs (["--random"] ++ ["--artist"])).2 = none ∧
    buildSongList [("Alpha", ["a.mp3"]), ("Beta", ["b.mp3"])]
        (parsePlayArgs (["--random"] ++ ["--artist"])).2
      = .ok (([("Alpha", ["a.mp3"]), ("Beta", ["b.mp3"])].map
          fun p => songEntries p.1 p.2).flatten) :=
  artist_flag_without_value ["--random"]
    [("Alpha", ["a.mp3"]), ("Beta", ["b.mp3"])] (by decide)

end SnatchTheBeat
